import Mathlib

/-!
Verification of the interactive parameter-resolution and reference-resolution
layer of the zos CLI (packages/cli/src/utils/prompt.ts), as a shallow
embedding in Lean 4.

JavaScript values that flow through the resolver are modelled by `Value`
(strings and string lists are the shapes the resolver actually receives);
a possibly-undefined slot is `Option Value`.  JavaScript objects keyed by
parameter name are association lists `List (String × Option Value)`;
object spread `\x7b...a, ...b\x7d` is `objMerge`.  Exceptions thrown by the
code (reading a field of `undefined`) are modelled with `Except String`.
External collaborators that are part of the repository but whose source is
not available (naming helpers, the network file, the local controller) are
modelled from the spec and marked as such in their doc comments.
-/

namespace Zos

/-- A JavaScript value handled by the resolver: a string or a list of
strings (the two shapes of argument/option values the CLI passes). -/
inductive Value where
  | vstr : String → Value
  | vlist : List String → Value
deriving DecidableEq, Repr

/-- lodash `isEmpty` on the values above: empty string / empty list. -/
def isEmptyV : Value → Bool
  | Value.vstr s => s == ""
  | Value.vlist l => l.isEmpty

/-- JavaScript truthiness of a `Value`: `""` is falsy, every list
(including `[]`) is truthy. -/
def truthyV : Value → Bool
  | Value.vstr s => !(s == "")
  | Value.vlist _ => true

/-- Truthiness of a possibly-undefined value (`undefined` is falsy). -/
def optTruthy : Option Value → Bool
  | none => false
  | some v => truthyV v

/-- The `choices` field of a question spec: a static list, or a
list-producing function of prior answers (opaque here). -/
inductive ChoicesVal where
  | lst : List String → ChoicesVal
  | fn : ChoicesVal
deriving DecidableEq, Repr

/-- One entry of the `props` map handed to `promptIfNeeded`: inquirer
question values plus the optional `normalize` transform. -/
structure QuestionSpec where
  type : Option String := none
  message : Option String := none
  choices : Option ChoicesVal := none
  default : Option Value := none
  normalize : Option (Option Value → Option Value) := none

/-- The question object built by `promptFor`: the spec's fields under the
given name, with `default` overridden by `defaults[name] || props[name].default`. -/
structure Question where
  name : String
  spec : QuestionSpec
  default : Option Value

/-- Embeds `export let DEFAULT_INTERACTIVE_STATUS = true` (prompt.ts line 20):
the initial value of the module-level mutable flag.  The current value of
the flag is threaded into `promptIfNeeded` as an explicit parameter. -/
def DEFAULT_INTERACTIVE_STATUS : Bool := true

/-- Embeds `hasEmptyChoices` (prompt.ts lines 224-226):
`choices && isEmpty(choices) && typeof choices !== 'function'`.
`[]` is truthy in JavaScript and lodash `isEmpty` of a function is true,
so this holds exactly for a present, empty, static list. -/
def hasEmptyChoices (spec : QuestionSpec) : Bool :=
  match spec.choices with
  | some (ChoicesVal.lst l) => l.isEmpty
  | some ChoicesVal.fn => false
  | none => false

/-- Embeds `promptFor` (prompt.ts lines 214-222): wraps a name and its spec into a
question whose `default` is `defaultValue || props[name].default`. -/
def promptFor (name : String) (defaults : String → Option Value) (spec : QuestionSpec) : Question :=
  { name := name, spec := spec,
    default := if optTruthy (defaults name) then defaults name else spec.default }

/-- The value-based filter of `promptIfNeeded`: args are pending when
`undefined || isEmpty(value)`, opts only when `undefined`. -/
def needsPrompt (isArgs : Bool) : Option Value → Bool
  | none => true
  | some v => isArgs && isEmptyV v

/-- A JavaScript object keyed by parameter name, in key-insertion order. -/
abbrev AnswerSet := List (String × Option Value)

/-- Reading `l[k]` on a keyed object: the value at the first entry named `k`. -/
def lookupKey {α : Type} (k : String) (l : List (String × α)) : Option α :=
  (l.find? (fun p => p.1 == k)).map (fun p => p.2)

/-- Whether the object `l` has an entry named `k`. -/
def containsKey {α : Type} (k : String) (l : List (String × α)) : Bool :=
  l.any (fun p => p.1 == k)

/-- JavaScript object spread `\x7b ...a, ...b \x7d`: keys of `a` in order with
values overridden by `b` where shared, then the keys of `b` not in `a`. -/
def objMerge (a b : AnswerSet) : AnswerSet :=
  a.map (fun p => (p.1, (lookupKey p.1 b).getD p.2)) ++
  b.filter (fun p => !(containsKey p.1 a))

/-- The two `.filter(...).map(promptFor ...)` chains of `promptIfNeeded`
(prompt.ts lines 32-40): keep the names whose value needs prompting, read
`props[name]` (destructuring `undefined` throws, hence `Except`), drop the
names with empty static choices, and build the questions. -/
def filterQuestions (isArgs : Bool) (props : String → Option QuestionSpec)
    (defaults : String → Option Value) : AnswerSet → Except String (List Question)
  | [] => Except.ok []
  | p :: rest =>
    if needsPrompt isArgs p.2 then
      match props p.1 with
      | none => Except.error "cannot destructure choices of undefined"
      | some spec =>
        match filterQuestions isArgs props defaults rest with
        | Except.error e => Except.error e
        | Except.ok qs =>
          Except.ok (if hasEmptyChoices spec then qs else promptFor p.1 defaults spec :: qs)
    else filterQuestions isArgs props defaults rest

/-- The normalization loop of `answersFor` (prompt.ts lines 203-205):
for every key of `merged`, reading `props[propName].normalize` (throws when
`props[propName]` is `undefined`) and applying it when declared. -/
def normalizeAll (props : String → Option QuestionSpec) : AnswerSet → Except String AnswerSet
  | [] => Except.ok []
  | p :: rest =>
    match props p.1 with
    | none => Except.error "cannot read normalize of undefined"
    | some spec =>
      match normalizeAll props rest with
      | Except.error e => Except.error e
      | Except.ok r =>
        Except.ok ((p.1, match spec.normalize with | some f => f p.2 | none => p.2) :: r)

/-- The interactive-input primitive (inquirer), per the spec's interface:
given an ordered sequence of question specs it returns one answer per
spec, keyed by the question's name.  The per-question answer is supplied
by an oracle so that theorems quantify over every interactive session. -/
def promptAnswers (oracle : Question → Option Value) (questions : List Question) : AnswerSet :=
  questions.map (fun q => (q.name, oracle q))

/-- Embeds `answersFor` (prompt.ts lines 200-208): merge the inputs with the
freshly collected answers when interactive, then normalize every key. -/
def answersFor (inputs : AnswerSet) (questions : List Question)
    (props : String → Option QuestionSpec) (interactive : Bool)
    (oracle : Question → Option Value) : Except String AnswerSet :=
  normalizeAll props
    (if interactive then objMerge inputs (promptAnswers oracle questions) else inputs)

/-- Embeds `promptIfNeeded` (prompt.ts lines 30-46).  The current value of the
mutable `DEFAULT_INTERACTIVE_STATUS` flag is the explicit parameter
`defaultInteractiveStatus`; `interactive` is the optional argument. -/
def promptIfNeeded (args opts : AnswerSet) (defaults : String → Option Value)
    (props : String → Option QuestionSpec) (oracle : Question → Option Value)
    (defaultInteractiveStatus : Bool) (interactive : Option Bool) : Except String AnswerSet :=
  let inter := interactive.getD defaultInteractiveStatus
  match filterQuestions true props defaults args with
  | Except.error e => Except.error e
  | Except.ok argsQuestions =>
    match filterQuestions false props defaults opts with
    | Except.error e => Except.error e
    | Except.ok optsQuestions =>
      match answersFor args argsQuestions props inter oracle with
      | Except.error e => Except.error e
      | Except.ok a =>
        match answersFor opts optsQuestions props inter oracle with
        | Except.error e => Except.error e
        | Except.ok b => Except.ok (objMerge a b)

/-- Pure value of `filterQuestions` when every pending name has a spec. -/
def questionList (isArgs : Bool) (props : String → Option QuestionSpec)
    (defaults : String → Option Value) : AnswerSet → List Question
  | [] => []
  | p :: rest =>
    if needsPrompt isArgs p.2 then
      match props p.1 with
      | none => questionList isArgs props defaults rest
      | some spec =>
        if hasEmptyChoices spec then questionList isArgs props defaults rest
        else promptFor p.1 defaults spec :: questionList isArgs props defaults rest
    else questionList isArgs props defaults rest

/-- The normalize transform a name's spec declares (identity when the spec
is absent or declares none). -/
def applyNormalize (spec : Option QuestionSpec) (v : Option Value) : Option Value :=
  match spec with
  | some sp => match sp.normalize with | some f => f v | none => v
  | none => v

/-- Pure value of `normalizeAll` when every key has a spec. -/
def normWith (props : String → Option QuestionSpec) (l : AnswerSet) : AnswerSet :=
  l.map (fun p => (p.1, applyNormalize (props p.1) p.2))

/-- One deployed-proxy entry persisted in a network file. -/
structure ProxyRecord where
  package : String
  contract : String
  address : String
deriving DecidableEq, Repr

/-- The partial filter `proxyParams` built by `proxyInfo` (prompt.ts
lines 57-61): each field constrains only when defined. -/
structure ProxyQuery where
  contract : Option String
  address : Option String
  package : Option String
deriving DecidableEq, Repr

/-- Modelled from the spec: `ZosNetworkFile.getProxies` (source not under
src/) searches the ProxyRecords with a partial filter — a given field must
equal the record's field, an empty query matches all records. -/
def matchesQuery (q : ProxyQuery) (r : ProxyRecord) : Bool :=
  (match q.contract with | none => true | some c => r.contract == c) &&
  (match q.address with | none => true | some a => r.address == a) &&
  (match q.package with | none => true | some p => r.package == p)

/-- Modelled from the spec: the records matching the query, in record order. -/
def getProxies (proxies : List ProxyRecord) (q : ProxyQuery) : List ProxyRecord :=
  proxies.filter (matchesQuery q)

/-- Modelled from the spec: `ZosNetworkFile.hasProxies` — whether any
record matches the query. -/
def hasProxies (proxies : List ProxyRecord) (q : ProxyQuery) : Bool :=
  !(getProxies proxies q).isEmpty

/-- JavaScript truthiness of a possibly-undefined string (`undefined` and
`""` are falsy). -/
def truthyS : Option String → Bool
  | none => false
  | some s => !(s == "")

/-- JavaScript `a || b` on possibly-undefined strings. -/
def orFalsyS (a b : Option String) : Option String :=
  if truthyS a then a else b

/-- Modelled from the spec: `toContractFullName` (utils/naming.ts, source
not under src/).  The canonical full name is `package/alias` when the
package is given and differs from the local project's own name, and the
bare alias otherwise. -/
def toContractFullName (localName : String) (packageName contractAlias : Option String) : Option String :=
  if truthyS packageName && !(packageName == some localName) then
    some ((packageName.getD "") ++ "/" ++ (contractAlias.getD ""))
  else contractAlias

/-- The `\x7bcontractFullName, address, proxyReference\x7d` tuple returned by
`proxyInfo`; absent object fields are `none`. -/
structure ResolvedProxy where
  contractFullName : Option String
  address : Option String
  proxyReference : Option String
deriving DecidableEq, Repr

/-- Embeds `proxyInfo` (prompt.ts lines 53-79).  `localName` is the local package
file's own name and `proxies` the network file's persisted records, both
read by the collaborators the function constructs. -/
def proxyInfo (localName : String) (proxies : List ProxyRecord)
    (contractAlias proxyAddress packageName : Option String) : ResolvedProxy :=
  let proxyParams : ProxyQuery := ⟨contractAlias, proxyAddress, packageName⟩
  if !truthyS proxyAddress && !truthyS contractAlias then
    ⟨none, none, none⟩
  else if !(hasProxies proxies proxyParams) then
    let contractFullName := toContractFullName localName packageName contractAlias
    ⟨contractFullName, none, orFalsyS proxyAddress contractFullName⟩
  else
    match getProxies proxies proxyParams with
    | [] =>
      let contractFullName := toContractFullName localName none none
      ⟨contractFullName, none, orFalsyS proxyAddress contractFullName⟩
    | r :: _ =>
      let contractFullName := toContractFullName localName (some r.package) (some r.contract)
      ⟨contractFullName, some r.address, orFalsyS proxyAddress contractFullName⟩

/-- One input parameter of a contract method (`\x7bname, type\x7d`). -/
structure MethodInput where
  name : String
  type : String
deriving DecidableEq, Repr

/-- One introspected contract method as produced by `methodsFromAst`. -/
structure ContractMethod where
  name : String
  selector : String
  hasInitializer : Bool
  inputs : List MethodInput
deriving DecidableEq, Repr

/-- Modelled from the spec: the `LocalController` collaborator (source not
under src/) — whether a package/contract pair is locally known, and the
introspected methods of a known contract. -/
structure LocalControllerModel where
  hasContract : Option String → String → Bool
  getContractMethods : Option String → String → List ContractMethod

/-- Split a character list at its last slash: the part before it and the
part after it, or `none` when there is no slash. -/
def splitLastSlash : List Char → Option (List Char × List Char)
  | [] => none
  | c :: cs =>
    match splitLastSlash cs with
    | some (l, r) => some (c :: l, r)
    | none => if c = '/' then some ([], cs) else none

/-- Modelled from the spec: `fromContractFullName` (utils/naming.ts, source
not under src/), the inverse of `toContractFullName`: `package/alias`
splits at the last slash, a bare name has no package. -/
def fromContractFullName (s : String) : Option String × String :=
  match splitLastSlash s.data with
  | some (l, r) => (some (String.mk l), String.mk r)
  | none => (none, s)

/-- Embeds `contractMethods` (prompt.ts lines 190-197): parse the full name, return
`[]` when the controller does not know the contract, else its methods. -/
def contractMethods (ctrl : LocalControllerModel) (contractFullName : String) : List ContractMethod :=
  let pc := fromContractFullName contractFullName
  if ctrl.hasContract pc.1 pc.2 then ctrl.getContractMethods pc.1 pc.2 else []

/-- Embeds `argsList` (prompt.ts lines 165-174): find the first method whose
selector or name equals the identifier and return its input names, else `[]`. -/
def argsList (ctrl : LocalControllerModel) (contractFullName methodIdentifier : String) : List String :=
  match (contractMethods ctrl contractFullName).find?
      (fun m => m.selector == methodIdentifier || m.name == methodIdentifier) with
  | some m => m.inputs.map (fun i => i.name)
  | none => []

/-- The display label `methodsList` builds for one method
(prompt.ts lines 156-159). -/
def methodLabel (m : ContractMethod) : String :=
  (if m.hasInitializer then "[Initializable] " else "") ++ m.name ++ "(" ++
    String.intercalate ", " (m.inputs.map (fun i => i.name ++ ": " ++ i.type)) ++ ")"

/-- Embeds `methodsList` (prompt.ts lines 154-163): one `\x7bname: label, value:
\x7bname, selector\x7d\x7d` choice per introspected method. -/
def methodsList (ctrl : LocalControllerModel) (contractFullName : String) :
    List (String × (String × String)) :=
  (contractMethods ctrl contractFullName).map (fun m => (methodLabel m, (m.name, m.selector)))

/-- Reading of the spec sentence for `argNamesFor`: look the method up by
selector first, and only when no selector matches fall back to a lookup by
name.  Used to compare the spec's words with `argsList`. -/
def argNamesForSpecRead (ctrl : LocalControllerModel) (contractFullName methodIdentifier : String) : List String :=
  match (contractMethods ctrl contractFullName).find? (fun m => m.selector == methodIdentifier) with
  | some m => m.inputs.map (fun i => i.name)
  | none =>
    match (contractMethods ctrl contractFullName).find? (fun m => m.name == methodIdentifier) with
    | some m => m.inputs.map (fun i => i.name)
    | none => []

/-- One element of an inquirer choices array as built by `contractsList`
and `proxiesList`: a separator, a plain string, or a `\x7bname, value\x7d` pair. -/
inductive ChoiceItem where
  | sep : String → ChoiceItem
  | plain : String → ChoiceItem
  | nameValue : String → String → ChoiceItem
deriving DecidableEq, Repr

/-- The `\x7b[name]: \x7btype, message, choices\x7d\x7d` object built by
`inquirerQuestion` (prompt.ts lines 210-212). -/
structure InquirerQuestionModel where
  name : String
  message : String
  type : String
  choices : List ChoiceItem
deriving DecidableEq, Repr

/-- Return value of `contractsList`: a question object, or the bare `[]`
returned for an unknown source. -/
inductive ContractsListResult where
  | question : InquirerQuestionModel → ContractsListResult
  | emptyList : ContractsListResult
deriving DecidableEq, Repr

/-- The state `contractsList` reads: the compiled contract names from
`build/contracts`, the local manifest's `\x7bname, alias\x7d` pairs, and
per linked dependency its manifest's contract aliases. -/
structure CatalogEnv where
  buildContracts : List String
  localContracts : List (String × String)
  dependencies : List (String × List String)

/-- Embeds `inquirerQuestion` (prompt.ts lines 210-212) wrapped in the result type. -/
def inquirerQuestion (name message type : String) (choices : List ChoiceItem) : ContractsListResult :=
  ContractsListResult.question ⟨name, message, type, choices⟩

/-- The per-dependency section of `contractsList('all')` (prompt.ts lines
136-145): prefixed aliases, with the dependency separator unshifted only
when the dependency exposes at least one contract. -/
def depSection (dependencyName : String) (aliases : List String) : List ChoiceItem :=
  let contractNames := aliases.map (fun c => ChoiceItem.plain (dependencyName ++ "/" ++ c))
  if contractNames.length > 0 then
    ChoiceItem.sep (" = " ++ dependencyName ++ " =") :: contractNames
  else contractNames

/-- Embeds `contractsList` (prompt.ts lines 115-151).  The first guard is
the code's `!source || source === 'fromBuildDir'`: `undefined` and the
empty string are both JS-falsy and take the build-directory branch. -/
def contractsList (env : CatalogEnv) (name message type : String) (source : Option String) : ContractsListResult :=
  if !(truthyS source) || source == some "fromBuildDir" then
    inquirerQuestion name message type (env.buildContracts.map ChoiceItem.plain)
  else if source == some "fromLocal" then
    inquirerQuestion name message type
      (env.localContracts.map (fun p =>
        ChoiceItem.nameValue (if p.1 == p.2 then p.2 else p.2 ++ "[" ++ p.1 ++ "]") p.2))
  else if source == some "all" then
    let packageContracts := env.dependencies.map (fun d => depSection d.1 d.2)
    let contractsFromBuild := env.buildContracts.map ChoiceItem.plain
    let contractsFromBuild :=
      if contractsFromBuild.length > 0 then
        ChoiceItem.sep " = Local contracts =" :: contractsFromBuild
      else contractsFromBuild
    inquirerQuestion name message type (contractsFromBuild ++ packageContracts.flatten)
  else ContractsListResult.emptyList

/-- The choices of the `all` section as the spec words them: a "Local
contracts" section then one section per linked dependency, a section with
zero contracts contributing no separator. -/
def sectionSpec (label : String) (items : List ChoiceItem) : List ChoiceItem :=
  if items.isEmpty then [] else ChoiceItem.sep label :: items

/-- Spec-side description of the `all` choice sequence, for comparison
with `contractsList`. -/
def allChoicesSpec (env : CatalogEnv) : List ChoiceItem :=
  sectionSpec " = Local contracts =" (env.buildContracts.map ChoiceItem.plain) ++
  (env.dependencies.map (fun d =>
    sectionSpec (" = " ++ d.1 ++ " =")
      (d.2.map (fun c => ChoiceItem.plain (d.1 ++ "/" ++ c))))).flatten

/-! Keyed-object lemmas -/

theorem lookupKey_cons {α : Type} (k : String) (p : String × α) (l : List (String × α)) :
    lookupKey k (p :: l) = if p.1 = k then some p.2 else lookupKey k l := by
  by_cases h : p.1 = k
  · rw [if_pos h]; unfold lookupKey
    rw [List.find?_cons_of_pos _ (by simp [h])]; rfl
  · rw [if_neg h]; unfold lookupKey
    rw [List.find?_cons_of_neg _ (by simp [h])]

theorem lookupKey_append {α : Type} (k : String) (x y : List (String × α)) :
    lookupKey k (x ++ y) =
      match lookupKey k x with
      | some v => some v
      | none => lookupKey k y := by
  unfold lookupKey
  rw [List.find?_append]
  cases List.find? (fun p => p.1 == k) x <;> simp [Option.or]

theorem lookupKey_eq_none {α : Type} {k : String} {l : List (String × α)}
    (h : ∀ p ∈ l, p.1 ≠ k) : lookupKey k l = none := by
  unfold lookupKey
  rw [List.find?_eq_none.mpr]
  · rfl
  · intro p hp
    simpa using h p hp

theorem lookupKey_of_mem {α : Type} {k : String} {v : α} {l : List (String × α)}
    (hnd : (l.map Prod.fst).Nodup) (hm : (k, v) ∈ l) : lookupKey k l = some v := by
  induction l with
  | nil => cases hm
  | cons p rest ih =>
    rcases List.mem_cons.mp hm with h | h
    · rw [← h, lookupKey_cons]; simp
    · have hk : p.1 ≠ k := by
        intro he
        have : k ∈ rest.map Prod.fst := List.mem_map.mpr ⟨(k, v), h, rfl⟩
        rw [List.map_cons] at hnd
        exact (List.nodup_cons.mp hnd).1 (he ▸ this)
      rw [lookupKey_cons, if_neg hk]
      exact ih (List.nodup_cons.mp (List.map_cons _ _ _ ▸ hnd)).2 h

theorem containsKey_eq_false {α : Type} {k : String} {l : List (String × α)} :
    containsKey k l = false ↔ ∀ p ∈ l, p.1 ≠ k := by
  unfold containsKey
  rw [← Bool.not_eq_true, List.any_eq_true]
  constructor
  · intro h p hp he
    exact h ⟨p, hp, by simp [he]⟩
  · rintro h ⟨p, hp, he⟩
    exact h p hp (by simpa using he)

theorem lookupKey_filter_congr {α : Type} (k : String) (pred1 pred2 : (String × α) → Bool)
    (b : List (String × α)) (h : ∀ p ∈ b, p.1 = k → pred1 p = pred2 p) :
    lookupKey k (b.filter pred1) = lookupKey k (b.filter pred2) := by
  induction b with
  | nil => rfl
  | cons p rest ih =>
    have ht : ∀ q ∈ rest, q.1 = k → pred1 q = pred2 q :=
      fun q hq => h q (List.mem_cons_of_mem _ hq)
    rw [List.filter_cons, List.filter_cons]
    by_cases hk : p.1 = k
    · rw [← h p (List.mem_cons_self _ _) hk]
      cases hp1 : pred1 p
      · simpa using ih ht
      · simp [lookupKey_cons, hk]
    · cases hp1 : pred1 p <;> cases hp2 : pred2 p <;>
        simp [lookupKey_cons, hk, ih ht]

theorem objMerge_cons (p : String × Option Value) (a b : AnswerSet) :
    objMerge (p :: a) b =
      (p.1, (lookupKey p.1 b).getD p.2) ::
      (a.map (fun q => (q.1, (lookupKey q.1 b).getD q.2)) ++
       b.filter (fun q => !(containsKey q.1 (p :: a)))) := rfl

theorem objMerge_nil_right (a : AnswerSet) : objMerge a [] = a := by
  induction a with
  | nil => rfl
  | cons p rest ih =>
    show (p.1, p.2) :: objMerge rest [] = p :: rest
    rw [ih]

theorem objMerge_nil_left (b : AnswerSet) : objMerge [] b = b := by
  unfold objMerge
  rw [List.map_nil, List.nil_append, List.filter_eq_self.mpr]
  intro p _
  rfl

theorem lookupKey_objMerge (k : String) (a b : AnswerSet) :
    lookupKey k (objMerge a b) =
      match lookupKey k a with
      | some v => some ((lookupKey k b).getD v)
      | none => lookupKey k b := by
  induction a with
  | nil => rw [objMerge_nil_left]; rfl
  | cons p rest ih =>
    rw [objMerge_cons, lookupKey_cons, lookupKey_cons]
    by_cases hk : p.1 = k
    · rw [if_pos hk, if_pos hk, hk]
    · rw [if_neg hk, if_neg hk]
      have hcongr : ∀ q ∈ b, q.1 = k →
          (!(containsKey q.1 (p :: rest))) = (!(containsKey q.1 rest)) := by
        intro q _ hq
        have he : containsKey q.1 (p :: rest) = containsKey q.1 rest := by
          unfold containsKey
          rw [List.any_cons]
          have hf : (p.1 == q.1) = false := by simp [hq ▸ hk]
          rw [hf, Bool.false_or]
        rw [he]
      have hm : objMerge rest b =
          rest.map (fun q => (q.1, (lookupKey q.1 b).getD q.2)) ++
          b.filter (fun q => !(containsKey q.1 rest)) := rfl
      rw [lookupKey_append k (rest.map (fun q => (q.1, (lookupKey q.1 b).getD q.2)))
            (b.filter (fun q => !(containsKey q.1 (p :: rest)))),
          lookupKey_filter_congr k _ _ b hcongr,
          ← lookupKey_append k (rest.map (fun q => (q.1, (lookupKey q.1 b).getD q.2)))
            (b.filter (fun q => !(containsKey q.1 rest))),
          ← hm]
      exact ih

theorem mem_objMerge {p : String × Option Value} {a b : AnswerSet}
    (h : p ∈ objMerge a b) : (∃ q ∈ a, q.1 = p.1) ∨ p ∈ b := by
  unfold objMerge at h
  rcases List.mem_append.mp h with h | h
  · obtain ⟨q, hq, he⟩ := List.mem_map.mp h
    exact Or.inl ⟨q, hq, by rw [← he]⟩
  · exact Or.inr (List.mem_filter.mp h).1

theorem lookupKey_normWith (props : String → Option QuestionSpec) (k : String) (l : AnswerSet) :
    lookupKey k (normWith props l) = (lookupKey k l).map (applyNormalize (props k)) := by
  induction l with
  | nil => rfl
  | cons p rest ih =>
    show lookupKey k ((p.1, applyNormalize (props p.1) p.2) :: normWith props rest) = _
    rw [lookupKey_cons, lookupKey_cons]
    by_cases hk : p.1 = k
    · rw [if_pos hk, if_pos hk, hk]; rfl
    · rw [if_neg hk, if_neg hk, ih]

/-! Bridge between the monadic code and its pure characterizations -/

theorem filterQuestions_ok (isArgs : Bool) (props : String → Option QuestionSpec)
    (defaults : String → Option Value) (l : AnswerSet)
    (hcov : ∀ p ∈ l, (props p.1).isSome = true) :
    filterQuestions isArgs props defaults l =
      Except.ok (questionList isArgs props defaults l) := by
  induction l with
  | nil => rfl
  | cons p rest ih =>
    have hre : ∀ q ∈ rest, (props q.1).isSome = true :=
      fun q hq => hcov q (List.mem_cons_of_mem _ hq)
    have hp := hcov p (List.mem_cons_self _ _)
    rcases hs : props p.1 with _ | spec
    · rw [hs] at hp; simp at hp
    · by_cases hnp : needsPrompt isArgs p.2 = true
      · rw [filterQuestions, questionList, if_pos hnp, if_pos hnp, hs, ih hre]
      · rw [filterQuestions, questionList, if_neg hnp, if_neg hnp]
        exact ih hre

theorem normalizeAll_ok (props : String → Option QuestionSpec) (l : AnswerSet)
    (hcov : ∀ p ∈ l, (props p.1).isSome = true) :
    normalizeAll props l = Except.ok (normWith props l) := by
  induction l with
  | nil => rfl
  | cons p rest ih =>
    have hre : ∀ q ∈ rest, (props q.1).isSome = true :=
      fun q hq => hcov q (List.mem_cons_of_mem _ hq)
    have hp := hcov p (List.mem_cons_self _ _)
    rcases hs : props p.1 with _ | spec
    · rw [hs] at hp; simp at hp
    · rw [normalizeAll, hs, ih hre]
      show Except.ok ((p.1, applyNormalize (some spec) p.2) :: normWith props rest) = _
      unfold normWith
      rw [List.map_cons, hs]

theorem normalizeAll_ok_coverage (props : String → Option QuestionSpec) (l : AnswerSet)
    (a : AnswerSet) (h : normalizeAll props l = Except.ok a) :
    ∀ p ∈ l, (props p.1).isSome = true := by
  induction l generalizing a with
  | nil => intro p hp; cases hp
  | cons p rest ih =>
    intro q hq
    rcases hs : props p.1 with _ | spec
    · rw [normalizeAll, hs] at h; cases h
    · rw [normalizeAll, hs] at h
      rcases hr : normalizeAll props rest with e | r
      · rw [hr] at h; cases h
      · rcases List.mem_cons.mp hq with he | hq2
        · rw [he, hs]; rfl
        · exact ih r hr q hq2

theorem questionList_cons_no {isArgs : Bool} {props : String → Option QuestionSpec}
    {defaults : String → Option Value} {p : String × Option Value} {rest : AnswerSet}
    (hnp : needsPrompt isArgs p.2 = false) :
    questionList isArgs props defaults (p :: rest) = questionList isArgs props defaults rest := by
  rw [questionList, if_neg (by simp [hnp])]

theorem questionList_cons_missing {isArgs : Bool} {props : String → Option QuestionSpec}
    {defaults : String → Option Value} {p : String × Option Value} {rest : AnswerSet}
    (hnp : needsPrompt isArgs p.2 = true) (hs : props p.1 = none) :
    questionList isArgs props defaults (p :: rest) = questionList isArgs props defaults rest := by
  rw [questionList, if_pos hnp, hs]

theorem questionList_cons_empty {isArgs : Bool} {props : String → Option QuestionSpec}
    {defaults : String → Option Value} {p : String × Option Value} {rest : AnswerSet}
    {spec : QuestionSpec} (hnp : needsPrompt isArgs p.2 = true)
    (hs : props p.1 = some spec) (hec : hasEmptyChoices spec = true) :
    questionList isArgs props defaults (p :: rest) = questionList isArgs props defaults rest := by
  rw [questionList, if_pos hnp, hs]
  exact if_pos hec

theorem questionList_cons_ask {isArgs : Bool} {props : String → Option QuestionSpec}
    {defaults : String → Option Value} {p : String × Option Value} {rest : AnswerSet}
    {spec : QuestionSpec} (hnp : needsPrompt isArgs p.2 = true)
    (hs : props p.1 = some spec) (hec : hasEmptyChoices spec = false) :
    questionList isArgs props defaults (p :: rest) =
      promptFor p.1 defaults spec :: questionList isArgs props defaults rest := by
  rw [questionList, if_pos hnp, hs]
  exact if_neg (by simp [hec])

theorem mem_questionList {isArgs : Bool} {props : String → Option QuestionSpec}
    {defaults : String → Option Value} {l : AnswerSet} {q : Question}
    (h : q ∈ questionList isArgs props defaults l) :
    ∃ p ∈ l, p.1 = q.name ∧ needsPrompt isArgs p.2 = true ∧
      ∃ sp, props p.1 = some sp ∧ hasEmptyChoices sp = false := by
  induction l with
  | nil => cases h
  | cons p rest ih =>
    by_cases hnp : needsPrompt isArgs p.2 = true
    · rcases hs : props p.1 with _ | spec
      · rw [questionList_cons_missing hnp hs] at h
        obtain ⟨r, hr, hrest⟩ := ih h
        exact ⟨r, List.mem_cons_of_mem _ hr, hrest⟩
      · by_cases hec : hasEmptyChoices spec = true
        · rw [questionList_cons_empty hnp hs hec] at h
          obtain ⟨r, hr, hrest⟩ := ih h
          exact ⟨r, List.mem_cons_of_mem _ hr, hrest⟩
        · rw [questionList_cons_ask hnp hs (Bool.not_eq_true _ ▸ hec)] at h
          rcases List.mem_cons.mp h with he | h2
          · refine ⟨p, List.mem_cons_self _ _, ?_, hnp, spec, hs, ?_⟩
            · rw [he]; rfl
            · exact Bool.not_eq_true _ ▸ hec
          · obtain ⟨r, hr, hrest⟩ := ih h2
            exact ⟨r, List.mem_cons_of_mem _ hr, hrest⟩
    · rw [questionList_cons_no (Bool.not_eq_true _ ▸ hnp)] at h
      obtain ⟨r, hr, hrest⟩ := ih h
      exact ⟨r, List.mem_cons_of_mem _ hr, hrest⟩

/-- With unique keys, two entries of a keyed object sharing a key carry the
same value. -/
theorem value_eq_of_mem_nodup {α : Type} {l : List (String × α)} {k : String} {a b : α}
    (hnd : (l.map Prod.fst).Nodup) (h1 : (k, a) ∈ l) (h2 : (k, b) ∈ l) : a = b := by
  have e1 := lookupKey_of_mem hnd h1
  have e2 := lookupKey_of_mem hnd h2
  rw [e1] at e2
  exact Option.some.inj e2

/-- A name whose current value does not need prompting never occurs among
the built questions (assuming unique keys). -/
theorem not_mem_questionList_names {isArgs : Bool} {props : String → Option QuestionSpec}
    {defaults : String → Option Value} {l : AnswerSet} {n : String} {v : Option Value}
    (hnd : (l.map Prod.fst).Nodup) (hm : (n, v) ∈ l) (hnp : needsPrompt isArgs v = false) :
    n ∉ (questionList isArgs props defaults l).map Question.name := by
  intro hq
  obtain ⟨q, hq1, hq2⟩ := List.mem_map.mp hq
  obtain ⟨p, hp, hpn, hpneeds, _⟩ := mem_questionList hq1
  have hkey : p.1 = n := by rw [hpn, hq2]
  have hpmem : (n, p.2) ∈ l := by
    have : p = (n, p.2) := by rw [← hkey]
    exact this ▸ hp
  have hv : p.2 = v := value_eq_of_mem_nodup hnd hpmem hm
  rw [hv] at hpneeds
  rw [hpneeds] at hnp
  cases hnp

/-- The `merged` object of `answersFor` (prompt.ts line 201), for one batch
whose questions are built from the batch's own inputs. -/
def mergedInputs (isArgs : Bool) (props : String → Option QuestionSpec)
    (defaults : String → Option Value) (l : AnswerSet)
    (oracle : Question → Option Value) (interactive : Bool) : AnswerSet :=
  if interactive then
    objMerge l (promptAnswers oracle (questionList isArgs props defaults l))
  else l

theorem coverage_merged (isArgs : Bool) (props : String → Option QuestionSpec)
    (defaults : String → Option Value) (l : AnswerSet)
    (oracle : Question → Option Value) (i : Bool)
    (hcov : ∀ p ∈ l, (props p.1).isSome = true) :
    ∀ p ∈ mergedInputs isArgs props defaults l oracle i, (props p.1).isSome = true := by
  intro p hp
  unfold mergedInputs at hp
  cases i with
  | false => exact hcov p hp
  | true =>
    rw [if_pos rfl] at hp
    rcases mem_objMerge hp with ⟨q, hq, he⟩ | hpa
    · rw [← he]
      exact hcov q hq
    · obtain ⟨q, hq, he⟩ := List.mem_map.mp hpa
      obtain ⟨r, _, hr1, _, sp, hsp, _⟩ := mem_questionList hq
      have : p.1 = q.name := by rw [← he]
      rw [this, ← hr1, hsp]
      rfl

theorem answersFor_eq (l : AnswerSet) (isArgs : Bool) (props : String → Option QuestionSpec)
    (defaults : String → Option Value) (oracle : Question → Option Value) (i : Bool)
    (hcov : ∀ p ∈ l, (props p.1).isSome = true) :
    answersFor l (questionList isArgs props defaults l) props i oracle =
      Except.ok (normWith props (mergedInputs isArgs props defaults l oracle i)) := by
  unfold answersFor mergedInputs
  exact normalizeAll_ok props _ (coverage_merged isArgs props defaults l oracle i hcov)

/-- Under props coverage, `promptIfNeeded` succeeds and returns the merge
of the two normalized per-batch answer objects. -/
theorem promptIfNeeded_ok (args opts : AnswerSet) (defaults : String → Option Value)
    (props : String → Option QuestionSpec) (oracle : Question → Option Value)
    (flag : Bool) (inter : Option Bool)
    (hcovA : ∀ p ∈ args, (props p.1).isSome = true)
    (hcovO : ∀ p ∈ opts, (props p.1).isSome = true) :
    promptIfNeeded args opts defaults props oracle flag inter =
      Except.ok (objMerge
        (normWith props (mergedInputs true props defaults args oracle (inter.getD flag)))
        (normWith props (mergedInputs false props defaults opts oracle (inter.getD flag)))) := by
  have h1 := filterQuestions_ok true props defaults args hcovA
  have h2 := filterQuestions_ok false props defaults opts hcovO
  have ha := answersFor_eq args true props defaults oracle (inter.getD flag) hcovA
  have hb := answersFor_eq opts false props defaults oracle (inter.getD flag) hcovO
  simp only [promptIfNeeded, h1, h2, ha, hb]

/-- No entry of `promptAnswers` carries a name outside the question list. -/
theorem lookupKey_promptAnswers_eq_none {oracle : Question → Option Value}
    {qs : List Question} {n : String} (h : n ∉ qs.map Question.name) :
    lookupKey n (promptAnswers oracle qs) = none := by
  apply lookupKey_eq_none
  intro p hp he
  obtain ⟨q, hq, hpe⟩ := List.mem_map.mp hp
  apply h
  apply List.mem_map.mpr
  refine ⟨q, hq, ?_⟩
  rw [← he, ← hpe]

/-- An input entry whose name was not turned into a question keeps its
value through the interactive merge. -/
theorem lookupKey_mergedInputs_of_not_questioned {isArgs : Bool}
    {props : String → Option QuestionSpec} {defaults : String → Option Value}
    {l : AnswerSet} {oracle : Question → Option Value} {i : Bool} {n : String} {v : Option Value}
    (hnd : (l.map Prod.fst).Nodup) (hm : (n, v) ∈ l)
    (hq : n ∉ (questionList isArgs props defaults l).map Question.name) :
    lookupKey n (mergedInputs isArgs props defaults l oracle i) = some v := by
  unfold mergedInputs
  cases i with
  | false => exact lookupKey_of_mem hnd hm
  | true =>
    rw [if_pos rfl, lookupKey_objMerge, lookupKey_of_mem hnd hm,
      lookupKey_promptAnswers_eq_none hq]
    rfl

/-- A name absent from a batch's inputs is absent from its merged object. -/
theorem lookupKey_mergedInputs_of_absent {isArgs : Bool}
    {props : String → Option QuestionSpec} {defaults : String → Option Value}
    {l : AnswerSet} {oracle : Question → Option Value} {i : Bool} {n : String}
    (habs : containsKey n l = false) :
    lookupKey n (mergedInputs isArgs props defaults l oracle i) = none := by
  have hkeys : ∀ p ∈ l, p.1 ≠ n := containsKey_eq_false.mp habs
  unfold mergedInputs
  cases i with
  | false => exact lookupKey_eq_none hkeys
  | true =>
    rw [if_pos rfl, lookupKey_objMerge, lookupKey_eq_none hkeys,
      lookupKey_promptAnswers_eq_none]
    intro hmem
    obtain ⟨q, hq, he⟩ := List.mem_map.mp hmem
    obtain ⟨p, hp, hp1, _⟩ := mem_questionList hq
    exact hkeys p hp (by rw [hp1, he])

/-! Claim theorems: proxy resolver and catalog builder -/

/-- Claim C2: when at least one of contractAlias/proxyAddress is given and
one or more ProxyRecords match the built query, `proxyInfo` takes the first
matching record, rebuilds `contractFullName` from that record's own package
and contract, sets `address` to the record's address, and sets
`proxyReference` to the caller-given `proxyAddress` when present, otherwise
to the rebuilt full name. -/
theorem prompt_proxyInfo_match (localName : String) (proxies : List ProxyRecord)
    (contractAlias proxyAddress packageName : Option String)
    (r : ProxyRecord) (rest : List ProxyRecord)
    (hgiven : truthyS contractAlias = true ∨ truthyS proxyAddress = true)
    (hmatch : getProxies proxies ⟨contractAlias, proxyAddress, packageName⟩ = r :: rest) :
    proxyInfo localName proxies contractAlias proxyAddress packageName =
      ⟨toContractFullName localName (some r.package) (some r.contract),
       some r.address,
       if truthyS proxyAddress = true then proxyAddress
       else toContractFullName localName (some r.package) (some r.contract)⟩ := by
  have hguard : (!truthyS proxyAddress && !truthyS contractAlias) = false := by
    rcases hgiven with h | h <;> simp [h]
  have hasP : hasProxies proxies ⟨contractAlias, proxyAddress, packageName⟩ = true := by
    unfold hasProxies
    rw [hmatch]
    rfl
  unfold proxyInfo
  rw [if_neg (by simp [hguard]), if_neg (by simp [hasP]), hmatch]
  rfl

/-- Claim C2, witnessed at the spec's own example: alias `Foo`, no address,
one record `(local, Foo, 0xAA)` in a project named `local`. -/
theorem prompt_proxyInfo_match_witness :
    getProxies [⟨"local", "Foo", "0xAA"⟩] ⟨some "Foo", none, none⟩ =
      [⟨"local", "Foo", "0xAA"⟩] ∧
    proxyInfo "local" [⟨"local", "Foo", "0xAA"⟩] (some "Foo") none none =
      ⟨some "Foo", some "0xAA", some "Foo"⟩ := by
  refine ⟨by decide, ?_⟩
  have h := prompt_proxyInfo_match "local" [⟨"local", "Foo", "0xAA"⟩]
    (some "Foo") none none ⟨"local", "Foo", "0xAA"⟩ [] (Or.inl (by decide)) (by decide)
  rw [h]
  decide

/-- Claim C4: when at least one of contractAlias/proxyAddress is given but
no ProxyRecord matches the query, `proxyInfo` synthesizes the full name
from packageName and contractAlias — package omitted when it equals the
local project's own name — and `proxyReference` is the given `proxyAddress`
when present, otherwise the synthesized full name. -/
theorem prompt_proxyInfo_nomatch (localName : String) (proxies : List ProxyRecord)
    (contractAlias proxyAddress packageName : Option String)
    (hgiven : truthyS contractAlias = true ∨ truthyS proxyAddress = true)
    (hnone : getProxies proxies ⟨contractAlias, proxyAddress, packageName⟩ = []) :
    proxyInfo localName proxies contractAlias proxyAddress packageName =
      ⟨toContractFullName localName packageName contractAlias,
       none,
       if truthyS proxyAddress = true then proxyAddress
       else toContractFullName localName packageName contractAlias⟩ ∧
    (∀ a : Option String, toContractFullName localName (some localName) a = a) := by
  constructor
  · have hguard : (!truthyS proxyAddress && !truthyS contractAlias) = false := by
      rcases hgiven with h | h <;> simp [h]
    have hasP : hasProxies proxies ⟨contractAlias, proxyAddress, packageName⟩ = false := by
      unfold hasProxies
      rw [hnone]
      rfl
    unfold proxyInfo
    rw [if_neg (by simp [hguard]), if_pos (by simp [hasP])]
    rfl
  · intro a
    unfold toContractFullName
    rw [if_neg (by simp)]

/-- Claim C4, witnessed at the spec's own example: alias `Bar`, address
`0xBB`, package equal to the local project's name, and no records. -/
theorem prompt_proxyInfo_nomatch_witness :
    getProxies [] ⟨some "Bar", some "0xBB", some "local"⟩ = [] ∧
    proxyInfo "local" [] (some "Bar") (some "0xBB") (some "local") =
      ⟨some "Bar", none, some "0xBB"⟩ := by
  refine ⟨rfl, ?_⟩
  have h := (prompt_proxyInfo_nomatch "local" [] (some "Bar") (some "0xBB") (some "local")
    (Or.inl (by decide)) rfl).1
  rw [h]
  decide

/-- A concrete controller whose contract has a method named `s` appearing
before a method whose selector is `s`: the single-pass disjunctive lookup
of `argsList` and a selector-first two-pass lookup disagree on it. -/
def sampleController : LocalControllerModel :=
  ⟨fun _ _ => true,
   fun _ _ =>
     [⟨"s", "t", false, [⟨"p", "uint256"⟩]⟩,
      ⟨"b", "s", false, [⟨"q", "uint256"⟩]⟩]⟩

/-- Claim C5, counterexample: `argsList` does not look the method up by
selector first and then by name — it takes the first method whose selector
or name matches.  On `sampleController` with identifier `s`, the code
returns the inputs of the first method (whose NAME is `s`), while a
selector-first lookup returns the inputs of the second method (whose
selector is `s`). -/
theorem prompt_argsList_counterexample :
    argsList sampleController "Foo" "s" = ["p"] ∧
    argNamesForSpecRead sampleController "Foo" "s" = ["q"] ∧
    argsList sampleController "Foo" "s" ≠ argNamesForSpecRead sampleController "Foo" "s" := by
  refine ⟨by decide, by decide, by decide⟩

/-- Claim C5, amended: `argsList` returns the input parameter names, in
order, of the first method whose selector or name equals the identifier
(a single pass checking each method's selector and name together), or an
empty sequence when no method's selector or name equals the identifier. -/
theorem prompt_argsList_first_match (ctrl : LocalControllerModel)
    (contractFullName methodIdentifier : String)
    (pre post : List ContractMethod) (m : ContractMethod) :
    (contractMethods ctrl contractFullName = pre ++ m :: post →
     (∀ m2 ∈ pre, m2.selector ≠ methodIdentifier ∧ m2.name ≠ methodIdentifier) →
     (m.selector = methodIdentifier ∨ m.name = methodIdentifier) →
     argsList ctrl contractFullName methodIdentifier = m.inputs.map MethodInput.name) ∧
    ((∀ m2 ∈ contractMethods ctrl contractFullName,
        m2.selector ≠ methodIdentifier ∧ m2.name ≠ methodIdentifier) →
     argsList ctrl contractFullName methodIdentifier = []) := by
  constructor
  · intro hsplit hpre hm
    unfold argsList
    rw [hsplit, List.find?_append]
    have h1 : List.find?
        (fun m2 => m2.selector == methodIdentifier || m2.name == methodIdentifier) pre = none :=
      List.find?_eq_none.mpr (fun x hx => by
        obtain ⟨ha, hb⟩ := hpre x hx
        simp [ha, hb])
    have h2 : List.find?
        (fun m2 => m2.selector == methodIdentifier || m2.name == methodIdentifier)
        (m :: post) = some m :=
      List.find?_cons_of_pos _ (by rcases hm with h | h <;> simp [h])
    rw [h1, h2]
    rfl
  · intro hall
    unfold argsList
    rw [List.find?_eq_none.mpr (fun x hx => by
      obtain ⟨ha, hb⟩ := hall x hx
      simp [ha, hb])]

/-- Claim C5 (amended) witnessed on `sampleController`: the first matching
method for `s` is the name-matching one, and an identifier matching no
method yields the empty list. -/
theorem prompt_argsList_first_match_witness :
    argsList sampleController "Foo" "s" = ["p"] ∧
    argsList sampleController "Foo" "zzz" = [] := by
  constructor
  · exact (prompt_argsList_first_match sampleController "Foo" "s"
      [] [⟨"b", "s", false, [⟨"q", "uint256"⟩]⟩] ⟨"s", "t", false, [⟨"p", "uint256"⟩]⟩).1
      (by decide) (by decide) (Or.inr rfl)
  · exact (prompt_argsList_first_match sampleController "Foo" "zzz" [] [] ⟨"", "", false, []⟩).2 (by decide)

/-- Claim C6, counterexample: the empty string is a source value that is
none of the three known modes, yet `contractsList` does not return an
empty result for it — `""` is JS-falsy, so the code's `!source` guard
routes it to the build-directory branch and the build-artifact question
is returned instead of the empty list. -/
theorem prompt_unknown_source_counterexample :
    ("" : String) ≠ "fromBuildDir" ∧ ("" : String) ≠ "fromLocal" ∧ ("" : String) ≠ "all" ∧
    contractsList ⟨["A"], [], []⟩ "n" "m" "t" (some "") =
      ContractsListResult.question ⟨"n", "m", "t", [ChoiceItem.plain "A"]⟩ ∧
    ContractsListResult.question (⟨"n", "m", "t", [ChoiceItem.plain "A"]⟩ : InquirerQuestionModel) ≠
      ContractsListResult.emptyList := by
  refine ⟨by decide, by decide, by decide, rfl, by decide⟩

/-- Claim C6, amended: unresolvable references yield empty results, never
errors — an unknown package/contract gives empty method lists, an
identifier matching no method gives an empty argument list, and an
unknown source mode that is a non-empty string gives an empty contract
list (the empty source string is JS-falsy and takes the build-directory
default instead).  (All the modelled operations are total Lean functions:
no failure case exists besides these empty results.) -/
theorem prompt_unresolvable_empty (ctrl : LocalControllerModel)
    (contractFullName methodIdentifier : String)
    (env : CatalogEnv) (name message type source : String) :
    (ctrl.hasContract (fromContractFullName contractFullName).1
        (fromContractFullName contractFullName).2 = false →
      contractMethods ctrl contractFullName = [] ∧
      methodsList ctrl contractFullName = [] ∧
      argsList ctrl contractFullName methodIdentifier = []) ∧
    ((∀ m2 ∈ contractMethods ctrl contractFullName,
        m2.selector ≠ methodIdentifier ∧ m2.name ≠ methodIdentifier) →
      argsList ctrl contractFullName methodIdentifier = []) ∧
    (source ≠ "" → source ≠ "fromBuildDir" → source ≠ "fromLocal" → source ≠ "all" →
      contractsList env name message type (some source) = ContractsListResult.emptyList) := by
  refine ⟨?_, ?_, ?_⟩
  · intro h
    have hcm : contractMethods ctrl contractFullName = [] := by
      show (if ctrl.hasContract (fromContractFullName contractFullName).1
              (fromContractFullName contractFullName).2 = true then
            ctrl.getContractMethods (fromContractFullName contractFullName).1
              (fromContractFullName contractFullName).2
          else []) = []
      rw [h]
      rfl
    refine ⟨hcm, ?_, ?_⟩
    · unfold methodsList
      rw [hcm]
      rfl
    · unfold argsList
      rw [hcm]
      rfl
  · intro hall
    unfold argsList
    rw [List.find?_eq_none.mpr (fun x hx => by
      obtain ⟨ha, hb⟩ := hall x hx
      simp [ha, hb])]
  · intro h0 h1 h2 h3
    have t1 : truthyS (some source) = true := by
      simp [truthyS, h0]
    have b1 : ((some source : Option String) == some "fromBuildDir") = false := by
      simp [h1]
    have b2 : ((some source : Option String) == some "fromLocal") = false := by
      simp [h2]
    have b3 : ((some source : Option String) == some "all") = false := by
      simp [h3]
    unfold contractsList
    rw [if_neg (by simp [t1, b1]), if_neg (by simp [b2]), if_neg (by simp [b3])]

/-- Claim C6, witnessed: a controller that knows no contract, an identifier
matching no method of `sampleController`, and source mode `wat`. -/
theorem prompt_unresolvable_empty_witness :
    contractMethods ⟨fun _ _ => false, fun _ _ => []⟩ "Foo" = [] ∧
    argsList sampleController "Foo" "zz" = [] ∧
    contractsList ⟨[], [], []⟩ "n" "m" "t" (some "wat") = ContractsListResult.emptyList := by
  refine ⟨?_, ?_, ?_⟩
  · exact ((prompt_unresolvable_empty ⟨fun _ _ => false, fun _ _ => []⟩ "Foo" "zz"
      ⟨[], [], []⟩ "n" "m" "t" "wat").1 rfl).1
  · exact (prompt_unresolvable_empty sampleController "Foo" "zz"
      ⟨[], [], []⟩ "n" "m" "t" "wat").2.1 (by decide)
  · exact (prompt_unresolvable_empty sampleController "Foo" "zz"
      ⟨[], [], []⟩ "n" "m" "t" "wat").2.2 (by decide) (by decide) (by decide) (by decide)

/-- Shows `depSection` is the per-dependency section exactly as the spec words
it: no separator for a dependency exposing zero contracts. -/
theorem depSection_eq_sectionSpec (dependencyName : String) (aliases : List String) :
    depSection dependencyName aliases =
      sectionSpec (" = " ++ dependencyName ++ " =")
        (aliases.map (fun c => ChoiceItem.plain (dependencyName ++ "/" ++ c))) := by
  cases aliases with
  | nil => rfl
  | cons a as => simp [depSection, sectionSpec]

/-- Claim C7: `contractsList` of source `all` produces exactly the
spec-worded sequence — the build-artifact contracts preceded by a "Local
contracts" separator only when nonempty, followed per linked dependency by
that dependency's prefixed aliases preceded by its own separator only when
it exposes at least one contract; in particular, with no build contracts
and one dependency `dep1` exposing `[A, B]`, the sequence is one `dep1`
separator followed by `dep1/A`, `dep1/B` and no "Local contracts"
separator. -/
theorem prompt_contractsList_all :
    (∀ (env : CatalogEnv) (name message type : String),
      contractsList env name message type (some "all") =
        ContractsListResult.question ⟨name, message, type, allChoicesSpec env⟩) ∧
    contractsList ⟨[], [], [("dep1", ["A", "B"])]⟩ "contract" "Pick" "list" (some "all") =
      ContractsListResult.question ⟨"contract", "Pick", "list",
        [ChoiceItem.sep " = dep1 =", ChoiceItem.plain "dep1/A", ChoiceItem.plain "dep1/B"]⟩ := by
  constructor
  · intro env name message type
    show inquirerQuestion name message type
        ((if (env.buildContracts.map ChoiceItem.plain).length > 0 then
            ChoiceItem.sep " = Local contracts =" :: env.buildContracts.map ChoiceItem.plain
          else env.buildContracts.map ChoiceItem.plain) ++
         (env.dependencies.map (fun d => depSection d.1 d.2)).flatten) = _
    have hb : (if (env.buildContracts.map ChoiceItem.plain).length > 0 then
          ChoiceItem.sep " = Local contracts =" :: env.buildContracts.map ChoiceItem.plain
        else env.buildContracts.map ChoiceItem.plain) =
        sectionSpec " = Local contracts =" (env.buildContracts.map ChoiceItem.plain) := by
      cases env.buildContracts with
      | nil => rfl
      | cons a as => simp [sectionSpec]
    have hd : (fun d : String × List String => depSection d.1 d.2) =
        fun d => sectionSpec (" = " ++ d.1 ++ " =")
          (d.2.map (fun c => ChoiceItem.plain (d.1 ++ "/" ++ c))) :=
      funext fun d => depSection_eq_sectionSpec d.1 d.2
    rw [hb, hd]
    rfl
  · decide

/-! Claim theorems: parameter resolver -/

theorem filterQuestions_ok_nil (isArgs : Bool) (props : String → Option QuestionSpec)
    (defaults : String → Option Value) (l : AnswerSet)
    (h : ∀ p ∈ l, needsPrompt isArgs p.2 = false) :
    filterQuestions isArgs props defaults l = Except.ok [] := by
  induction l with
  | nil => rfl
  | cons p rest ih =>
    rw [filterQuestions, if_neg (by simp [h p (List.mem_cons_self _ _)])]
    exact ih (fun q hq => h q (List.mem_cons_of_mem _ hq))

/-- Claim C1: when every name in args has a defined and non-empty value and
every name in opts has a defined value (and every such name has a question
spec in props), `promptIfNeeded` builds an empty question set for both
batches — so no interactive prompting occurs — and returns exactly the
supplied values after applying each name's declared normalize transform. -/
theorem prompt_no_prompting_when_supplied (args opts : AnswerSet)
    (defaults : String → Option Value) (props : String → Option QuestionSpec)
    (oracle : Question → Option Value) (flag : Bool) (inter : Option Bool)
    (hargs : ∀ p ∈ args, p.2.map isEmptyV = some false)
    (hopts : ∀ p ∈ opts, p.2.isSome = true)
    (hcovA : ∀ p ∈ args, (props p.1).isSome = true)
    (hcovO : ∀ p ∈ opts, (props p.1).isSome = true) :
    filterQuestions true props defaults args = Except.ok [] ∧
    filterQuestions false props defaults opts = Except.ok [] ∧
    promptIfNeeded args opts defaults props oracle flag inter =
      Except.ok (objMerge (normWith props args) (normWith props opts)) := by
  have hnA : ∀ p ∈ args, needsPrompt true p.2 = false := by
    intro p hp
    rcases hv : p.2 with _ | v
    · have hm := hargs p hp
      rw [hv] at hm
      exact absurd hm (by simp)
    · have hm := hargs p hp
      rw [hv] at hm
      simp only [Option.map_some'] at hm
      simp [needsPrompt, Option.some.inj hm]
  have hnO : ∀ p ∈ opts, needsPrompt false p.2 = false := by
    intro p hp
    rcases hv : p.2 with _ | v
    · have hm := hopts p hp
      rw [hv] at hm
      exact absurd hm (by simp)
    · simp [needsPrompt]
  have h1 := filterQuestions_ok_nil true props defaults args hnA
  have h2 := filterQuestions_ok_nil false props defaults opts hnO
  have ha : answersFor args [] props (inter.getD flag) oracle =
      Except.ok (normWith props args) := by
    unfold answersFor
    rw [show promptAnswers oracle [] = [] from rfl, objMerge_nil_right, ite_self]
    exact normalizeAll_ok props args hcovA
  have hb : answersFor opts [] props (inter.getD flag) oracle =
      Except.ok (normWith props opts) := by
    unfold answersFor
    rw [show promptAnswers oracle [] = [] from rfl, objMerge_nil_right, ite_self]
    exact normalizeAll_ok props opts hcovO
  refine ⟨h1, h2, ?_⟩
  simp only [promptIfNeeded, h1, h2, ha, hb]

/-- Claim C1 witnessed: one non-empty arg with a normalize transform and one
defined (empty-string) opt pass through without prompting, normalized. -/
theorem prompt_no_prompting_when_supplied_witness :
    promptIfNeeded [("a", some (Value.vstr "x"))] [("o", some (Value.vstr ""))]
      (fun _ => none)
      (fun n => if n = "a" then
          some ⟨none, none, none, none, some (fun _ => some (Value.vstr "nx"))⟩
        else if n = "o" then some ⟨none, none, none, none, none⟩ else none)
      (fun _ => none) true none =
      Except.ok [("a", some (Value.vstr "nx")), ("o", some (Value.vstr ""))] := by
  have h := (prompt_no_prompting_when_supplied
    [("a", some (Value.vstr "x"))] [("o", some (Value.vstr ""))]
    (fun _ => none)
    (fun n => if n = "a" then
        some ⟨none, none, none, none, some (fun _ => some (Value.vstr "nx"))⟩
      else if n = "o" then some ⟨none, none, none, none, none⟩ else none)
    (fun _ => none) true none
    (by decide) (by decide) (by decide) (by decide)).2.2
  rw [h]
  rfl

/-- Claim C3, counterexample: in interactive mode a freshly collected
answer CAN replace an already-supplied defined input value.  The arg `x`
has the defined value `""`; being empty it is put in the question set, and
the collected answer `v` overwrites it in the returned AnswerSet. -/
theorem prompt_overwrite_counterexample :
    lookupKey "x" ([("x", some (Value.vstr ""))] : AnswerSet) = some (some (Value.vstr "")) ∧
    promptIfNeeded [("x", some (Value.vstr ""))] [] (fun _ => none)
      (fun _ => some ⟨none, none, none, none, none⟩)
      (fun _ => some (Value.vstr "v")) true (some true) =
      Except.ok [("x", some (Value.vstr "v"))] ∧
    some (Value.vstr "") ≠ some (Value.vstr "v") := by
  refine ⟨rfl, rfl, by decide⟩

/-- Claim C3, amended: a freshly collected answer never replaces an
already-supplied input value that is defined and, for args, non-empty
(such names are excluded from the question set; a defined-but-empty arg
value IS replaced).  The returned value for such a name is exactly its
supplied value after its declared normalize transform. -/
theorem prompt_no_overwrite (args opts : AnswerSet) (defaults : String → Option Value)
    (props : String → Option QuestionSpec) (oracle : Question → Option Value)
    (flag : Bool) (inter : Option Bool) (n : String) (v : Value)
    (hcovA : ∀ p ∈ args, (props p.1).isSome = true)
    (hcovO : ∀ p ∈ opts, (props p.1).isSome = true)
    (hndA : (args.map Prod.fst).Nodup)
    (hndO : (opts.map Prod.fst).Nodup) :
    ((n, some v) ∈ args → isEmptyV v = false → containsKey n opts = false →
      ∃ r, promptIfNeeded args opts defaults props oracle flag inter = Except.ok r ∧
        lookupKey n r = some (applyNormalize (props n) (some v))) ∧
    ((n, some v) ∈ opts →
      ∃ r, promptIfNeeded args opts defaults props oracle flag inter = Except.ok r ∧
        lookupKey n r = some (applyNormalize (props n) (some v))) := by
  have hok := promptIfNeeded_ok args opts defaults props oracle flag inter hcovA hcovO
  constructor
  · intro hmem hemp habs
    refine ⟨_, hok, ?_⟩
    have hqA : n ∉ (questionList true props defaults args).map Question.name :=
      not_mem_questionList_names hndA hmem (by simp [needsPrompt, hemp])
    have hA : lookupKey n
        (normWith props (mergedInputs true props defaults args oracle (inter.getD flag))) =
        some (applyNormalize (props n) (some v)) := by
      rw [lookupKey_normWith,
        lookupKey_mergedInputs_of_not_questioned hndA hmem hqA]
      rfl
    have hB : lookupKey n
        (normWith props (mergedInputs false props defaults opts oracle (inter.getD flag))) =
        none := by
      rw [lookupKey_normWith, lookupKey_mergedInputs_of_absent habs]
      rfl
    rw [lookupKey_objMerge, hA, hB]
    rfl
  · intro hmem
    refine ⟨_, hok, ?_⟩
    have hqO : n ∉ (questionList false props defaults opts).map Question.name :=
      not_mem_questionList_names hndO hmem (by simp [needsPrompt])
    have hB : lookupKey n
        (normWith props (mergedInputs false props defaults opts oracle (inter.getD flag))) =
        some (applyNormalize (props n) (some v)) := by
      rw [lookupKey_normWith,
        lookupKey_mergedInputs_of_not_questioned hndO hmem hqO]
      rfl
    rw [lookupKey_objMerge, hB]
    cases lookupKey n
      (normWith props (mergedInputs true props defaults args oracle (inter.getD flag))) <;> rfl

/-- Claim C3 (amended) witnessed: a non-empty arg and a defined opt keep
their supplied values through an interactive round whose oracle would
answer differently. -/
theorem prompt_no_overwrite_witness :
    (∃ r, promptIfNeeded [("a", some (Value.vstr "x"))] [("o", some (Value.vstr "y"))]
        (fun _ => none) (fun _ => some ⟨none, none, none, none, none⟩)
        (fun _ => some (Value.vstr "z")) true (some true) = Except.ok r ∧
      lookupKey "a" r = some (applyNormalize
        ((fun _ => some (⟨none, none, none, none, none⟩ : QuestionSpec)) "a")
        (some (Value.vstr "x")))) ∧
    (∃ r, promptIfNeeded [("a", some (Value.vstr "x"))] [("o", some (Value.vstr "y"))]
        (fun _ => none) (fun _ => some ⟨none, none, none, none, none⟩)
        (fun _ => some (Value.vstr "z")) true (some true) = Except.ok r ∧
      lookupKey "o" r = some (applyNormalize
        ((fun _ => some (⟨none, none, none, none, none⟩ : QuestionSpec)) "o")
        (some (Value.vstr "y")))) := by
  constructor
  · exact (prompt_no_overwrite [("a", some (Value.vstr "x"))] [("o", some (Value.vstr "y"))]
      (fun _ => none) (fun _ => some ⟨none, none, none, none, none⟩)
      (fun _ => some (Value.vstr "z")) true (some true) "a" (Value.vstr "x")
      (by decide) (by decide) (by decide) (by decide)).1 (by decide) (by decide) (by decide)
  · exact (prompt_no_overwrite [("a", some (Value.vstr "x"))] [("o", some (Value.vstr "y"))]
      (fun _ => none) (fun _ => some ⟨none, none, none, none, none⟩)
      (fun _ => some (Value.vstr "z")) true (some true) "o" (Value.vstr "y")
      (by decide) (by decide) (by decide) (by decide)).2 (by decide)

/-- Claim C8, counterexample: a name whose spec has present-but-empty
static choices is indeed excluded from the question set, but its value does
NOT always remain undefined in the result — the normalize transform is
still applied to the undefined value and can make it defined. -/
theorem prompt_empty_choices_counterexample :
    questionList true
      (fun _ => some ⟨none, none, some (ChoicesVal.lst []), none,
        some (fun _ => some (Value.vstr "v"))⟩)
      (fun _ => none) [("x", none)] = [] ∧
    promptIfNeeded [("x", none)] [] (fun _ => none)
      (fun _ => some ⟨none, none, some (ChoicesVal.lst []), none,
        some (fun _ => some (Value.vstr "v"))⟩)
      (fun _ => none) true (some true) =
      Except.ok [("x", some (Value.vstr "v"))] ∧
    some (Value.vstr "v") ≠ (none : Option Value) := by
  refine ⟨rfl, rfl, by decide⟩

/-- Claim C8, amended: a name in args or opts whose QuestionSpec has a
present, empty, non-function choices field is excluded from the question
set of its batch; when that name's spec declares no normalize transform,
its undefined value remains undefined in the returned AnswerSet (with a
normalize transform the result is the transform applied to the value). -/
theorem prompt_empty_choices_skipped (args opts : AnswerSet) (defaults : String → Option Value)
    (props : String → Option QuestionSpec) (oracle : Question → Option Value)
    (flag : Bool) (inter : Option Bool) (n : String) (spec : QuestionSpec)
    (hcovA : ∀ p ∈ args, (props p.1).isSome = true)
    (hcovO : ∀ p ∈ opts, (props p.1).isSome = true)
    (hndA : (args.map Prod.fst).Nodup)
    (hndO : (opts.map Prod.fst).Nodup)
    (hspec : props n = some spec)
    (hempty : spec.choices = some (ChoicesVal.lst [])) :
    n ∉ (questionList true props defaults args).map Question.name ∧
    n ∉ (questionList false props defaults opts).map Question.name ∧
    (spec.normalize = none →
      (((n, (none : Option Value)) ∈ args ∧ containsKey n opts = false) ∨
        (n, (none : Option Value)) ∈ opts) →
      ∃ r, promptIfNeeded args opts defaults props oracle flag inter = Except.ok r ∧
        lookupKey n r = some none) := by
  have hec : hasEmptyChoices spec = true := by
    unfold hasEmptyChoices
    rw [hempty]
    rfl
  have hnotq : ∀ (isArgs : Bool) (l : AnswerSet),
      n ∉ (questionList isArgs props defaults l).map Question.name := by
    intro isArgs l hmem
    obtain ⟨q, hq, hqn⟩ := List.mem_map.mp hmem
    obtain ⟨p, _, hp1, _, sp, hsp, hspec2⟩ := mem_questionList hq
    have hpn : p.1 = n := by rw [hp1, hqn]
    rw [hpn, hspec] at hsp
    rw [← Option.some.inj hsp] at hspec2
    rw [hec] at hspec2
    cases hspec2
  refine ⟨hnotq true args, hnotq false opts, ?_⟩
  intro hnorm hcase
  have hok := promptIfNeeded_ok args opts defaults props oracle flag inter hcovA hcovO
  refine ⟨_, hok, ?_⟩
  have happ : applyNormalize (props n) (none : Option Value) = none := by
    have hstep : applyNormalize (props n) (none : Option Value) =
        applyNormalize (some spec) none := by rw [hspec]
    rw [hstep]
    show (match spec.normalize with | some f => f none | none => none) = none
    rw [hnorm]
  rcases hcase with ⟨hmemA, habsO⟩ | hmemO
  · have hA : lookupKey n
        (normWith props (mergedInputs true props defaults args oracle (inter.getD flag))) =
        some none := by
      rw [lookupKey_normWith,
        lookupKey_mergedInputs_of_not_questioned hndA hmemA (hnotq true args)]
      simp [happ]
    have hB : lookupKey n
        (normWith props (mergedInputs false props defaults opts oracle (inter.getD flag))) =
        none := by
      rw [lookupKey_normWith, lookupKey_mergedInputs_of_absent habsO]
      rfl
    rw [lookupKey_objMerge, hA, hB]
    rfl
  · have hB : lookupKey n
        (normWith props (mergedInputs false props defaults opts oracle (inter.getD flag))) =
        some none := by
      rw [lookupKey_normWith,
        lookupKey_mergedInputs_of_not_questioned hndO hmemO (hnotq false opts)]
      simp [happ]
    rw [lookupKey_objMerge, hB]
    cases lookupKey n
      (normWith props (mergedInputs true props defaults args oracle (inter.getD flag))) <;> rfl

/-- Claim C8 (amended) witnessed: an undefined arg with empty static
choices and no normalize is not prompted and stays undefined. -/
theorem prompt_empty_choices_skipped_witness :
    "x" ∉ (questionList true
      (fun _ => some ⟨none, none, some (ChoicesVal.lst []), none, none⟩)
      (fun _ => none) [("x", none)]).map Question.name ∧
    (∃ r, promptIfNeeded [("x", none)] [] (fun _ => none)
        (fun _ => some ⟨none, none, some (ChoicesVal.lst []), none, none⟩)
        (fun _ => some (Value.vstr "z")) true (some true) = Except.ok r ∧
      lookupKey "x" r = some none) := by
  have h := prompt_empty_choices_skipped [("x", none)] [] (fun _ => none)
    (fun _ => some ⟨none, none, some (ChoicesVal.lst []), none, none⟩)
    (fun _ => some (Value.vstr "z")) true (some true) "x"
    ⟨none, none, some (ChoicesVal.lst []), none, none⟩
    (by decide) (by decide) (by decide) (by decide) rfl rfl
  exact ⟨h.1, h.2.2 rfl (Or.inl ⟨by decide, rfl⟩)⟩

/-- Every key of a batch's inputs still names an entry of that batch's
merged object. -/
theorem exists_key_mergedInputs {isArgs : Bool} {props : String → Option QuestionSpec}
    {defaults : String → Option Value} {l : AnswerSet} {oracle : Question → Option Value}
    {i : Bool} {p : String × Option Value} (hp : p ∈ l) :
    ∃ q ∈ mergedInputs isArgs props defaults l oracle i, q.1 = p.1 := by
  unfold mergedInputs
  cases i with
  | false => exact ⟨p, hp, rfl⟩
  | true =>
    rw [if_pos rfl]
    refine ⟨(p.1, (lookupKey p.1 (promptAnswers oracle
      (questionList isArgs props defaults l))).getD p.2), ?_, rfl⟩
    unfold objMerge
    exact List.mem_append_left _ (List.mem_map.mpr ⟨p, hp, rfl⟩)

/-- If `promptIfNeeded` returned an AnswerSet, every name of args and opts
had an entry in props. -/
theorem promptIfNeeded_ok_coverage (args opts : AnswerSet) (defaults : String → Option Value)
    (props : String → Option QuestionSpec) (oracle : Question → Option Value)
    (flag : Bool) (inter : Option Bool) (r : AnswerSet)
    (h : promptIfNeeded args opts defaults props oracle flag inter = Except.ok r) :
    (∀ p ∈ args, (props p.1).isSome = true) ∧ (∀ p ∈ opts, (props p.1).isSome = true) := by
  simp only [promptIfNeeded] at h
  rcases h1 : filterQuestions true props defaults args with e | qa
  · simp only [h1] at h; cases h
  · simp only [h1] at h
    rcases h2 : filterQuestions false props defaults opts with e | qo
    · simp only [h2] at h; cases h
    · simp only [h2] at h
      rcases h3 : answersFor args qa props (inter.getD flag) oracle with e | a
      · simp only [h3] at h; cases h
      · simp only [h3] at h
        rcases h4 : answersFor opts qo props (inter.getD flag) oracle with e | b
        · simp only [h4] at h; cases h
        · unfold answersFor at h3 h4
          have hcm3 := normalizeAll_ok_coverage props _ a h3
          have hcm4 := normalizeAll_ok_coverage props _ b h4
          constructor
          · intro p hp
            have hm : ∃ q ∈ (if (inter.getD flag) = true then
                objMerge args (promptAnswers oracle qa) else args), q.1 = p.1 := by
              cases hi : inter.getD flag
              · rw [if_neg (by simp)]
                exact ⟨p, hp, rfl⟩
              · rw [if_pos rfl]
                refine ⟨(p.1, (lookupKey p.1 (promptAnswers oracle qa)).getD p.2), ?_, rfl⟩
                unfold objMerge
                exact List.mem_append_left _ (List.mem_map.mpr ⟨p, hp, rfl⟩)
            obtain ⟨q, hq, hqe⟩ := hm
            rw [← hqe]
            exact hcm3 q hq
          · intro p hp
            have hm : ∃ q ∈ (if (inter.getD flag) = true then
                objMerge opts (promptAnswers oracle qo) else opts), q.1 = p.1 := by
              cases hi : inter.getD flag
              · rw [if_neg (by simp)]
                exact ⟨p, hp, rfl⟩
              · rw [if_pos rfl]
                refine ⟨(p.1, (lookupKey p.1 (promptAnswers oracle qo)).getD p.2), ?_, rfl⟩
                unfold objMerge
                exact List.mem_append_left _ (List.mem_map.mpr ⟨p, hp, rfl⟩)
            obtain ⟨q, hq, hqe⟩ := hm
            rw [← hqe]
            exact hcm4 q hq

/-- Claim C9: `promptIfNeeded` requires props to contain an entry for every
name in args and in opts — a call in which some such name has no props
entry fails with a thrown error instead of returning an AnswerSet, and
under the precondition that props covers all such names, the call returns
an AnswerSet. -/
theorem prompt_props_required (args opts : AnswerSet) (defaults : String → Option Value)
    (props : String → Option QuestionSpec) (oracle : Question → Option Value)
    (flag : Bool) (inter : Option Bool) :
    ((∃ p, (p ∈ args ∨ p ∈ opts) ∧ props p.1 = none) →
      ∃ e, promptIfNeeded args opts defaults props oracle flag inter = Except.error e) ∧
    ((∀ p ∈ args, (props p.1).isSome = true) → (∀ p ∈ opts, (props p.1).isSome = true) →
      ∃ r, promptIfNeeded args opts defaults props oracle flag inter = Except.ok r) := by
  constructor
  · rintro ⟨p, hmem, hnone⟩
    rcases hres : promptIfNeeded args opts defaults props oracle flag inter with e | r
    · exact ⟨e, rfl⟩
    · exfalso
      have hcov := promptIfNeeded_ok_coverage args opts defaults props oracle flag inter r hres
      rcases hmem with hA | hO
      · have := hcov.1 p hA
        rw [hnone] at this
        cases this
      · have := hcov.2 p hO
        rw [hnone] at this
        cases this
  · intro hcovA hcovO
    exact ⟨_, promptIfNeeded_ok args opts defaults props oracle flag inter hcovA hcovO⟩

/-- Claim C9 witnessed: a missing props entry makes the call fail, and a
covering props map makes it return an AnswerSet. -/
theorem prompt_props_required_witness :
    (∃ e, promptIfNeeded [("x", some (Value.vstr "y"))] [] (fun _ => none)
      (fun _ => none) (fun _ => none) true none = Except.error e) ∧
    (∃ r, promptIfNeeded [("x", some (Value.vstr "y"))] [] (fun _ => none)
      (fun _ => some ⟨none, none, none, none, none⟩) (fun _ => none) true none =
        Except.ok r) := by
  constructor
  · exact (prompt_props_required [("x", some (Value.vstr "y"))] [] (fun _ => none)
      (fun _ => none) (fun _ => none) true none).1
      ⟨("x", some (Value.vstr "y")), Or.inl (by decide), rfl⟩
  · exact (prompt_props_required [("x", some (Value.vstr "y"))] [] (fun _ => none)
      (fun _ => some ⟨none, none, none, none, none⟩) (fun _ => none) true none).2
      (by decide) (by decide)

/-- Claim C10: an omitted/undefined `interactive` argument makes
`promptIfNeeded` behave exactly as if `interactive` were the current value
of the mutable `DEFAULT_INTERACTIVE_STATUS` flag, whose initial value is
`true`. -/
theorem prompt_default_interactive (args opts : AnswerSet) (defaults : String → Option Value)
    (props : String → Option QuestionSpec) (oracle : Question → Option Value) (flag : Bool) :
    promptIfNeeded args opts defaults props oracle flag none =
      promptIfNeeded args opts defaults props oracle flag (some flag) ∧
    DEFAULT_INTERACTIVE_STATUS = true :=
  ⟨rfl, rfl⟩

end Zos
